import Mathlib

/-!
Shallow embedding of `files-managment/organizar.py`, the file-organizer
script: category rules, plan building, collision-free destination
resolution, and plan application with per-category accounting.

Modelling conventions:
* A filesystem path is its list of components (`FsPath`); a filesystem
  snapshot is a finite list of entries, each a path tagged as directory
  or not.  `pathlib` operations (`name`, `stem`, `suffix`, `parent`,
  `/`) are embedded over this representation.
* Python's `str.lower` is embedded for the ASCII range (the only range
  exercised by the category table); `str(counter)` is embedded as the
  usual decimal rendering.
* Fallible operations (`raise ValueError`, a failing `shutil.move`)
  return `Except OrgError`; `shutil.move` fails exactly when the source
  entry is absent (the "source vanished" condition; OS-level permission
  errors are outside the snapshot model).
* `print` calls are side-effect free for the state the claims are about
  and are not modelled.
-/

/-- A filesystem path, as its list of components from the root. -/
abbrev FsPath := List String

/-- One filesystem entry: a path plus whether it is a directory. -/
structure Entry where
  path : FsPath
  is_dir : Bool
deriving DecidableEq, Repr

/-- A snapshot of the filesystem: the finite list of its entries. -/
structure FileSystem where
  entries : List Entry
deriving DecidableEq, Repr

/-- Embedding of `Path.exists()` against a snapshot. -/
def path_exists (fs : FileSystem) (p : FsPath) : Bool :=
  fs.entries.any (fun e => decide (e.path = p))

/-- Embedding of `Path.is_dir()` against a snapshot. -/
def is_directory (fs : FileSystem) (p : FsPath) : Bool :=
  fs.entries.any (fun e => decide (e.path = p) && e.is_dir)

/-- Embedding of `Path.name`: the final component (`""` for the empty path). -/
def path_name (p : FsPath) : String :=
  p.getLast?.getD ""

/-- Embedding of `Path.parent` on the component list. -/
def path_parent (p : FsPath) : FsPath :=
  p.dropLast

/-- Index of the last `'.'` in a character list (`name.rfind('.')`),
`none` when there is no dot. -/
def rfindDot : List Char → Option Nat
  | [] => none
  | c :: cs =>
    match rfindDot cs with
    | some j => some (j + 1)
    | none => if c = '.' then some 0 else none

/-- Embedding of `pathlib`'s `(stem, suffix)` split of a file name: the
suffix is `name[i:]` for `i` the last dot index when `0 < i < len - 1`,
otherwise empty (so `".bashrc"` and `"foo."` have no suffix). -/
def py_split_ext (name : String) : String × String :=
  let cs := name.data
  match rfindDot cs with
  | some i =>
    if 0 < i ∧ i < cs.length - 1 then (⟨cs.take i⟩, ⟨cs.drop i⟩) else (name, "")
  | none => (name, "")

/-- Embedding of `Path.stem`. -/
def py_stem (name : String) : String := (py_split_ext name).1

/-- Embedding of `Path.suffix`. -/
def py_suffix (name : String) : String := (py_split_ext name).2

/-- Embedding of `str.lower` on one character, for the ASCII range (the
category table, the only data the script lowercases against, is ASCII). -/
def lowerChar : Char → Char
  | 'A' => 'a' | 'B' => 'b' | 'C' => 'c' | 'D' => 'd' | 'E' => 'e' | 'F' => 'f'
  | 'G' => 'g' | 'H' => 'h' | 'I' => 'i' | 'J' => 'j' | 'K' => 'k' | 'L' => 'l'
  | 'M' => 'm' | 'N' => 'n' | 'O' => 'o' | 'P' => 'p' | 'Q' => 'q' | 'R' => 'r'
  | 'S' => 's' | 'T' => 't' | 'U' => 'u' | 'V' => 'v' | 'W' => 'w' | 'X' => 'x'
  | 'Y' => 'y' | 'Z' => 'z'
  | c => c

/-- Embedding of `str.lower` on a string. -/
def py_lower (s : String) : String := ⟨s.data.map lowerChar⟩

/-- The decimal digit character for `d < 10` (`'9'` as catch-all). -/
def digit_char (d : Nat) : Char :=
  if d = 0 then '0' else if d = 1 then '1' else if d = 2 then '2'
  else if d = 3 then '3' else if d = 4 then '4' else if d = 5 then '5'
  else if d = 6 then '6' else if d = 7 then '7' else if d = 8 then '8' else '9'

/-- Decimal digits of `n`, most significant first, prepended to `acc`;
fuel-indexed so the recursion is structural (any `fuel > n` is enough,
and `nat_repr` supplies `n + 1`). -/
def natDigitsCore : Nat → Nat → List Char → List Char
  | 0, _, acc => acc
  | fuel + 1, n, acc =>
    if n < 10 then digit_char n :: acc
    else natDigitsCore fuel (n / 10) (digit_char (n % 10) :: acc)

/-- Embedding of Python's `str(n)` for a non-negative integer. -/
def nat_repr (n : Nat) : String := ⟨natDigitsCore (n + 1) n []⟩

/-- Decode a digit list back to the number it renders (left fold). -/
def decodeDigits (cs : List Char) : Nat :=
  cs.foldl (fun a c => a * 10 + (c.toNat - 48)) 0

/-- The `CATEGORIES` table of `organizar.py`: category name together with
its extension list, in the dict's insertion order. -/
def CATEGORIES : List (String × List String) :=
  [ ("Imagenes",
      [".png", ".jpg", ".jpeg", ".gif", ".bmp", ".tiff", ".webp", ".svg",
       ".heic", ".avif"]),
    ("Documentos",
      [".pdf", ".doc", ".docx", ".txt", ".rtf", ".md", ".xls", ".xlsx",
       ".ppt", ".pptx", ".csv", ".odt", ".ods", ".odp"]),
    ("Videos",
      [".mp4", ".mkv", ".mov", ".avi", ".wmv", ".flv", ".webm", ".m4v"]),
    ("Audio",
      [".mp3", ".wav", ".flac", ".aac", ".ogg", ".m4a", ".wma"]),
    ("Comprimidos",
      [".zip", ".rar", ".7z", ".tar", ".gz", ".bz2", ".xz", ".tar.gz",
       ".tar.bz2", ".tar.xz"]),
    ("Instaladores",
      [".exe", ".msi", ".pkg", ".dmg"]),
    ("Codigo",
      [".py", ".ipynb", ".js", ".ts", ".tsx", ".jsx", ".java", ".c", ".h",
       ".cpp", ".hpp", ".cs", ".rb", ".go", ".php", ".sh", ".bat", ".ps1",
       ".html", ".css", ".scss", ".json", ".yml", ".yaml", ".xml", ".toml",
       ".ini", ".cfg"]) ]

/-- The `DEFAULT_OTHER_CATEGORY` constant of `organizar.py`. -/
def DEFAULT_OTHER_CATEGORY : String := "Otros"

/-- The `for category_name, extensions in CATEGORIES.items()` loop of
`infer_category_from_extension`: first table entry whose list contains
the (already lower-cased) extension, else the fallback. -/
def infer_aux (lower_extension : String) : List (String × List String) → String
  | [] => DEFAULT_OTHER_CATEGORY
  | (category_name, extensions) :: rest =>
    if lower_extension ∈ extensions then category_name
    else infer_aux lower_extension rest

/-- Embedding of `infer_category_from_extension`. -/
def infer_category_from_extension (extension : String) : String :=
  infer_aux (py_lower extension) CATEGORIES

/-- Embedding of `is_hidden_file`: the path's final component starts
with `"."` (`name.startswith(".")`, specialised to the one-character
needle the script uses). -/
def is_hidden_file (p : FsPath) : Bool :=
  match (path_name p).data with
  | [] => false
  | c :: _ => decide (c = '.')

/-- Embedding of `directory.iterdir()`: the snapshot's entries that are
direct children of `directory`, in snapshot order. -/
def iterdir (fs : FileSystem) (directory : FsPath) : List Entry :=
  fs.entries.filter (fun e => decide (e.path.dropLast = directory ∧ e.path ≠ []))

/-- The error outcomes of the script: the `ValueError` raised for an
invalid target, and a failed `shutil.move`. -/
inductive OrgError where
  | invalidTargetDirectory (directory : FsPath)
  | moveFailed (source : FsPath)
deriving DecidableEq, Repr

/-- The `MovePlan` dataclass. -/
structure MovePlan where
  source : FsPath
  destination : FsPath
  category : String
deriving DecidableEq, Repr

/-- The extension token `build_move_plan_for_directory` computes for a
file name: `child.suffix.lower()`. -/
def file_extension_of (name : String) : String :=
  py_lower (py_suffix name)

/-- The body of the `for child in directory.iterdir()` loop of
`build_move_plan_for_directory`: skip directories, skip hidden files
unless included, otherwise classify by the lower-cased suffix and plan
`directory/category/name`. -/
def plan_for_entry (directory : FsPath) (include_hidden : Bool) (e : Entry) :
    Option MovePlan :=
  if e.is_dir then none
  else if include_hidden = false ∧ is_hidden_file e.path then none
  else
    let file_extension := file_extension_of (path_name e.path)
    let category := infer_category_from_extension file_extension
    some { source := e.path
           destination := directory ++ [category, path_name e.path]
           category := category }

/-- Embedding of `build_move_plan_for_directory`: `ValueError` when the
target does not exist or is not a directory, otherwise one optional plan
item per directory entry, in enumeration order. -/
def build_move_plan_for_directory (fs : FileSystem) (directory : FsPath)
    (include_hidden : Bool) : Except OrgError (List MovePlan) :=
  if path_exists fs directory = false ∨ is_directory fs directory = false then
    .error (.invalidTargetDirectory directory)
  else
    .ok ((iterdir fs directory).filterMap (plan_for_entry directory include_hidden))

/-- Embedding of `path.mkdir(parents=True, exist_ok=True)`: walk the
components from the root, adding each missing ancestor (and the path
itself) as a directory entry. -/
def mkdir_parents_aux (fs : FileSystem) (base : FsPath) : List String → FileSystem
  | [] => fs
  | c :: rest =>
    let p := base ++ [c]
    let fs' : FileSystem :=
      if path_exists fs p then fs else ⟨fs.entries ++ [⟨p, true⟩]⟩
    mkdir_parents_aux fs' p rest

/-- Embedding of `ensure_directory`. -/
def ensure_directory (fs : FileSystem) (path : FsPath) : FileSystem :=
  if path_exists fs path then fs else mkdir_parents_aux fs [] path

/-- The collision candidate name `f"{stem} ({counter}){suffix}"`. -/
def collision_name (stem suffix : String) (counter : Nat) : String :=
  stem ++ " (" ++ nat_repr counter ++ ")" ++ suffix

/-- The `while True` loop of `generate_unique_destination_path`, indexed
by fuel and generic in the existence test; `none` means the fuel ran out
with the loop still running (the source loop has no exit of its own and
no error outcome). -/
def resolve_loop (ex : FsPath → Bool) (parent : FsPath) (stem suffix : String) :
    Nat → Nat → Option FsPath
  | _, 0 => none
  | counter, fuel + 1 =>
    let candidate := parent ++ [collision_name stem suffix counter]
    if ex candidate then resolve_loop ex parent stem suffix (counter + 1) fuel
    else some candidate

/-- Embedding of `generate_unique_destination_path`.  On the finite
snapshot the source's unbounded loop exits within `entries.length + 1`
iterations (proved below), so that fuel reproduces its exact value; the
`getD` branch is dead code. -/
def generate_unique_destination_path (fs : FileSystem) (destination : FsPath) :
    FsPath :=
  if path_exists fs destination then
    (resolve_loop (path_exists fs) (path_parent destination)
        (py_stem (path_name destination)) (py_suffix (path_name destination))
        1 (fs.entries.length + 1)).getD destination
  else destination

/-- Embedding of `shutil.move` on the snapshot: fails when the source entry is
absent, otherwise relocates it to the destination path. -/
def shutil_move (fs : FileSystem) (source destination : FsPath) :
    Except OrgError FileSystem :=
  match fs.entries.find? (fun e => decide (e.path = source)) with
  | none => .error (.moveFailed source)
  | some e =>
    .ok ⟨(fs.entries.filter (fun e2 => decide (e2.path ≠ source)))
          ++ [⟨destination, e.is_dir⟩]⟩

/-- Python `dict.get(key, default)` on an association list. -/
def dict_get (d : List (String × Nat)) (key : String) (default : Nat) : Nat :=
  match d.find? (fun kv => decide (kv.1 = key)) with
  | some kv => kv.2
  | none => default

/-- Python `dict[key] = value` on an association list with unique keys:
replace the first binding of `key`, else append a new one. -/
def dict_set : List (String × Nat) → String → Nat → List (String × Nat)
  | [], key, value => [(key, value)]
  | kv :: rest, key, value =>
    if kv.1 = key then (key, value) :: rest else kv :: dict_set rest key value

/-- The running state of `apply_move_plan`: the filesystem plus the
`moved_count` and `per_category` accumulators. -/
structure ApplyState where
  fs : FileSystem
  moved_count : Nat
  per_category : List (String × Nat)
deriving DecidableEq, Repr

/-- The `for plan in plans` loop of `apply_move_plan`: per item, ensure
the destination's parent directory, resolve the unique destination, then
either only report (dry run) or move and count. -/
def apply_loop (dry_run : Bool) : ApplyState → List MovePlan → Except OrgError ApplyState
  | st, [] => .ok st
  | st, plan :: rest =>
    let fs1 := ensure_directory st.fs (path_parent plan.destination)
    let unique_destination := generate_unique_destination_path fs1 plan.destination
    if dry_run then
      apply_loop dry_run { st with fs := fs1 } rest
    else
      match shutil_move fs1 plan.source unique_destination with
      | .error e => .error e
      | .ok fs2 =>
        apply_loop dry_run
          { fs := fs2
            moved_count := st.moved_count + 1
            per_category := dict_set st.per_category plan.category
              (dict_get st.per_category plan.category 0 + 1) } rest

/-- Embedding of `apply_move_plan`, threading the filesystem state the
Python code mutates in place; `unique_destination` is used only in the
`dry_run` branch's report and in the move, exactly as in the source. -/
def apply_move_plan (fs : FileSystem) (plans : List MovePlan) (dry_run : Bool) :
    Except OrgError ApplyState :=
  apply_loop dry_run ⟨fs, 0, []⟩ plans

/-- The candidate path the loop of `generate_unique_destination_path`
tests at a given counter value: `parent / f"{stem} ({counter}){suffix}"`. -/
def collision_candidate (destination : FsPath) (counter : Nat) : FsPath :=
  path_parent destination ++
    [collision_name (py_stem (path_name destination)) (py_suffix (path_name destination))
      counter]

/-- One category table row claims no extension of another (the bounded
disjointness the table satisfies, checked by `decide`). -/
def ext_disjoint (p q : String × List String) : Prop :=
  ∀ s ∈ p.2, s ∉ q.2

instance instExtDisjointDec (p q : String × List String) :
    Decidable (ext_disjoint p q) := by
  unfold ext_disjoint
  infer_instance

/-- Total of the `per_category` tally. -/
def sum_counts (d : List (String × Nat)) : Nat :=
  (d.map Prod.snd).sum

/-- Fixture: a directory `d` holding `report.pdf`. -/
def fsReport : FileSystem :=
  ⟨[⟨["d"], true⟩, ⟨["d", "report.pdf"], false⟩]⟩

/-- Fixture: a directory `d` holding `report.pdf` and `report (1).pdf`. -/
def fsReport2 : FileSystem :=
  ⟨[⟨["d"], true⟩, ⟨["d", "report.pdf"], false⟩, ⟨["d", "report (1).pdf"], false⟩]⟩

/-- Fixture: the plan item `build_move_plan_for_directory` produces for
`report.pdf` in `d`. -/
def planDocumentos : MovePlan :=
  { source := ["d", "report.pdf"]
    destination := ["d", "Documentos", "report.pdf"]
    category := "Documentos" }

/-- Fixture: `fsReport` after the `Documentos` directory got created. -/
def fsAfterDry : FileSystem :=
  ⟨[⟨["d"], true⟩, ⟨["d", "report.pdf"], false⟩, ⟨["d", "Documentos"], true⟩]⟩

/-- Fixture: `fsReport` after a live run of `planDocumentos`. -/
def fsAfterLive : FileSystem :=
  ⟨[⟨["d"], true⟩, ⟨["d", "Documentos"], true⟩,
    ⟨["d", "Documentos", "report.pdf"], false⟩]⟩

/-- Fixture: a directory `d` holding `archive.tar.gz`. -/
def fsTarGz : FileSystem :=
  ⟨[⟨["d"], true⟩, ⟨["d", "archive.tar.gz"], false⟩]⟩

instance instExceptDecEq {ε α : Type} [DecidableEq ε] [DecidableEq α] :
    DecidableEq (Except ε α) := fun a b =>
  match a, b with
  | .error e1, .error e2 =>
    if h : e1 = e2 then .isTrue (by rw [h])
    else .isFalse (by intro hc; injection hc; contradiction)
  | .error _, .ok _ => .isFalse (by intro hc; cases hc)
  | .ok _, .error _ => .isFalse (by intro hc; cases hc)
  | .ok a1, .ok a2 =>
    if h : a1 = a2 then .isTrue (by rw [h])
    else .isFalse (by intro hc; injection hc; contradiction)

/-- The ASCII upper-case letters, the inputs `lowerChar` rewrites. -/
def upperLetters : List Char :=
  ['A', 'B', 'C', 'D', 'E', 'F', 'G', 'H', 'I', 'J', 'K', 'L', 'M',
   'N', 'O', 'P', 'Q', 'R', 'S', 'T', 'U', 'V', 'W', 'X', 'Y', 'Z']

theorem natDigitsCore_append (fuel : Nat) :
    ∀ (n : Nat) (acc : List Char),
      natDigitsCore fuel n acc = natDigitsCore fuel n [] ++ acc := by
  induction fuel with
  | zero => intro n acc; simp [natDigitsCore]
  | succ fuel ih =>
    intro n acc
    by_cases h : n < 10
    · simp [natDigitsCore, h]
    · simp only [natDigitsCore, if_neg h]
      rw [ih (n / 10) (digit_char (n % 10) :: acc),
        ih (n / 10) [digit_char (n % 10)]]
      simp

theorem digit_char_val {d : Nat} (h : d < 10) : (digit_char d).toNat - 48 = d := by
  interval_cases d <;> decide

theorem decode_natDigitsCore (fuel : Nat) :
    ∀ n : Nat, n < fuel → decodeDigits (natDigitsCore fuel n []) = n := by
  induction fuel with
  | zero => intro n h; omega
  | succ fuel ih =>
    intro n hlt
    by_cases h : n < 10
    · simp [natDigitsCore, h, decodeDigits, digit_char_val h]
    · have h10 : 10 ≤ n := by omega
      have hdiv : n / 10 < fuel := by omega
      simp only [natDigitsCore, if_neg h]
      rw [natDigitsCore_append fuel (n / 10) [digit_char (n % 10)]]
      have hmod : n % 10 < 10 := Nat.mod_lt _ (by omega)
      simp only [decodeDigits] at *
      rw [List.foldl_append]
      simp only [List.foldl_cons, List.foldl_nil]
      rw [ih (n / 10) hdiv, digit_char_val hmod]
      omega

theorem nat_repr_inj {m n : Nat} (h : nat_repr m = nat_repr n) : m = n := by
  have hd : natDigitsCore (m + 1) m [] = natDigitsCore (n + 1) n [] := by
    have := congrArg String.data h
    simpa [nat_repr] using this
  have hm := decode_natDigitsCore (m + 1) m (by omega)
  have hn := decode_natDigitsCore (n + 1) n (by omega)
  rw [hd] at hm
  omega

theorem collision_name_inj (stem suffix : String) {a b : Nat}
    (h : collision_name stem suffix a = collision_name stem suffix b) : a = b := by
  have hd := congrArg String.data h
  simp only [collision_name, String.data_append, List.append_assoc] at hd
  have h1 := List.append_cancel_left hd
  have h2 := List.append_cancel_left h1
  have h3 := List.append_cancel_right h2
  exact nat_repr_inj (by apply String.ext; exact h3)

theorem candidate_path_inj (parent : FsPath) (stem suffix : String) {a b : Nat}
    (h : parent ++ [collision_name stem suffix a] =
      parent ++ [collision_name stem suffix b]) : a = b := by
  have h1 := List.append_cancel_left h
  simp only [List.cons.injEq, and_true] at h1
  exact collision_name_inj stem suffix h1

theorem exists_free_candidate (fs : FileSystem) (parent : FsPath)
    (stem suffix : String) :
    ∃ c, 1 ≤ c ∧ c < fs.entries.length + 2 ∧
      path_exists fs (parent ++ [collision_name stem suffix c]) = false := by
  by_contra hcon
  push_neg at hcon
  have hall : ∀ c, 1 ≤ c → c < fs.entries.length + 2 →
      (parent ++ [collision_name stem suffix c]) ∈ fs.entries.map Entry.path := by
    intro c h1 h2
    have h3 := hcon c h1 h2
    have h4 : path_exists fs (parent ++ [collision_name stem suffix c]) = true := by
      cases hb : path_exists fs (parent ++ [collision_name stem suffix c]) with
      | false => exact absurd hb h3
      | true => rfl
    simp only [path_exists, List.any_eq_true, decide_eq_true_eq] at h4
    obtain ⟨e, he, hpe⟩ := h4
    exact List.mem_map.mpr ⟨e, he, hpe⟩
  classical
  have hmaps : ∀ i ∈ (Finset.univ : Finset (Fin (fs.entries.length + 1))),
      (parent ++ [collision_name stem suffix (i.val + 1)]) ∈
        (fs.entries.map Entry.path).toFinset := by
    intro i _
    exact List.mem_toFinset.mpr (hall (i.val + 1) (by omega) (by omega))
  have hinj : Set.InjOn
      (fun i : Fin (fs.entries.length + 1) =>
        parent ++ [collision_name stem suffix (i.val + 1)])
      ↑(Finset.univ : Finset (Fin (fs.entries.length + 1))) := by
    intro i _ j _ hij
    have := candidate_path_inj parent stem suffix hij
    exact Fin.ext (by omega)
  have hcard := Finset.card_le_card_of_injOn
    (fun i : Fin (fs.entries.length + 1) =>
      parent ++ [collision_name stem suffix (i.val + 1)])
    hmaps hinj
  have h1 : (Finset.univ : Finset (Fin (fs.entries.length + 1))).card =
      fs.entries.length + 1 := by simp
  have h2 : (fs.entries.map Entry.path).toFinset.card ≤ fs.entries.length := by
    calc (fs.entries.map Entry.path).toFinset.card
        ≤ (fs.entries.map Entry.path).length := List.toFinset_card_le _
      _ = fs.entries.length := by simp
  omega

theorem resolve_loop_finds (ex : FsPath → Bool) (parent : FsPath)
    (stem suffix : String) :
    ∀ (fuel counter : Nat),
      (∃ j, counter ≤ j ∧ j < counter + fuel ∧
        ex (parent ++ [collision_name stem suffix j]) = false) →
      ∃ m, counter ≤ m ∧
        resolve_loop ex parent stem suffix counter fuel =
          some (parent ++ [collision_name stem suffix m]) ∧
        ex (parent ++ [collision_name stem suffix m]) = false ∧
        ∀ j, counter ≤ j → j < m →
          ex (parent ++ [collision_name stem suffix j]) = true := by
  intro fuel
  induction fuel with
  | zero =>
    intro counter h
    obtain ⟨j, h1, h2, _⟩ := h
    omega
  | succ fuel ih =>
    intro counter h
    obtain ⟨j, h1, h2, h3⟩ := h
    by_cases hex : ex (parent ++ [collision_name stem suffix counter]) = true
    · have hne : counter ≠ j := by
        intro he
        rw [he, h3] at hex
        cases hex
      obtain ⟨m, hm1, hm2, hm3, hm4⟩ :=
        ih (counter + 1) ⟨j, by omega, by omega, h3⟩
      refine ⟨m, by omega, ?_, hm3, ?_⟩
      · simpa only [resolve_loop, hex, if_true] using hm2
      · intro k hk1 hk2
        rcases Nat.eq_or_lt_of_le hk1 with he | hlt
        · rw [← he]; exact hex
        · exact hm4 k (by omega) hk2
    · have hex' : ex (parent ++ [collision_name stem suffix counter]) = false := by
        cases hb : ex (parent ++ [collision_name stem suffix counter]) with
        | false => rfl
        | true => exact absurd hb hex
      exact ⟨counter, Nat.le_refl _, by simp [resolve_loop, hex'], hex',
        fun k hk1 hk2 => by omega⟩

theorem lowerChar_fix_of_notin (c : Char) (h : c ∉ upperLetters) :
    lowerChar c = c := by
  unfold lowerChar
  split <;> first
    | rfl
    | exact absurd (by decide) h

theorem lowerChar_idem (c : Char) : lowerChar (lowerChar c) = lowerChar c := by
  by_cases h : c ∈ upperLetters
  · simp only [upperLetters, List.mem_cons, List.not_mem_nil, or_false] at h
    rcases h with rfl|rfl|rfl|rfl|rfl|rfl|rfl|rfl|rfl|rfl|rfl|rfl|rfl|rfl|rfl|rfl|
      rfl|rfl|rfl|rfl|rfl|rfl|rfl|rfl|rfl|rfl <;> decide
  · rw [lowerChar_fix_of_notin c h]
    exact lowerChar_fix_of_notin c h

theorem py_lower_idem (s : String) : py_lower (py_lower s) = py_lower s := by
  apply String.ext
  simp only [py_lower, List.map_map]
  exact List.map_congr_left (fun c _ => lowerChar_idem c)

theorem infer_aux_mem :
    ∀ (l : List (String × List String)) (category : String)
      (extensions : List String) (s : String),
      List.Pairwise ext_disjoint l → (category, extensions) ∈ l →
      s ∈ extensions → infer_aux s l = category := by
  intro l
  induction l with
  | nil =>
    intro _ _ _ _ hmem _
    cases hmem
  | cons hd tl ih =>
    intro category extensions s hpw hmem hs
    obtain ⟨c0, x0⟩ := hd
    rw [List.pairwise_cons] at hpw
    rcases List.mem_cons.mp hmem with he | ht
    · obtain ⟨h1, h2⟩ := Prod.mk.injEq .. ▸ he.symm
      subst h1; subst h2
      simp [infer_aux, hs]
    · have hnot : s ∉ x0 := by
        intro hx0
        exact hpw.1 (category, extensions) ht s hx0 hs
      simp only [infer_aux, if_neg hnot]
      exact ih category extensions s hpw.2 ht hs

theorem infer_aux_fallback :
    ∀ (l : List (String × List String)) (s : String),
      (∀ p ∈ l, s ∉ p.2) → infer_aux s l = DEFAULT_OTHER_CATEGORY := by
  intro l
  induction l with
  | nil => intro s _; rfl
  | cons hd tl ih =>
    intro s h
    obtain ⟨c0, x0⟩ := hd
    have hnot : s ∉ x0 := h (c0, x0) (List.mem_cons_self _ _)
    simp only [infer_aux, if_neg hnot]
    exact ih s (fun p hp => h p (List.mem_cons_of_mem _ hp))

theorem categories_pairwise : List.Pairwise ext_disjoint CATEGORIES := by
  decide

theorem mkdir_parents_aux_entries :
    ∀ (comps : List String) (fs : FileSystem) (base : FsPath),
      ∃ created, (mkdir_parents_aux fs base comps).entries = fs.entries ++ created ∧
        ∀ e ∈ created, e.is_dir = true := by
  intro comps
  induction comps with
  | nil =>
    intro fs base
    exact ⟨[], by simp [mkdir_parents_aux], by simp⟩
  | cons c rest ih =>
    intro fs base
    simp only [mkdir_parents_aux]
    by_cases h : path_exists fs (base ++ [c]) = true
    · simp only [h, if_true]
      exact ih fs (base ++ [c])
    · simp only [h, Bool.false_eq_true, if_false]
      obtain ⟨created, hc1, hc2⟩ :=
        ih ⟨fs.entries ++ [⟨base ++ [c], true⟩]⟩ (base ++ [c])
      refine ⟨⟨base ++ [c], true⟩ :: created, ?_, ?_⟩
      · rw [hc1]
        simp
      · intro e he
        rcases List.mem_cons.mp he with rfl | hmem
        · rfl
        · exact hc2 e hmem

theorem ensure_directory_entries (fs : FileSystem) (p : FsPath) :
    ∃ created, (ensure_directory fs p).entries = fs.entries ++ created ∧
      ∀ e ∈ created, e.is_dir = true := by
  unfold ensure_directory
  by_cases h : path_exists fs p = true
  · exact ⟨[], by simp [h], by simp⟩
  · simp only [h, Bool.false_eq_true, if_false]
    exact mkdir_parents_aux_entries p fs []

theorem apply_loop_dry_spec :
    ∀ (plans : List MovePlan) (st : ApplyState),
      ∃ created, apply_loop true st plans =
          .ok ⟨⟨st.fs.entries ++ created⟩, st.moved_count, st.per_category⟩ ∧
        ∀ e ∈ created, e.is_dir = true := by
  intro plans
  induction plans with
  | nil =>
    intro st
    exact ⟨[], by simp [apply_loop], by simp⟩
  | cons p rest ih =>
    intro st
    simp only [apply_loop, if_true]
    obtain ⟨c1, hc1, hd1⟩ := ensure_directory_entries st.fs (path_parent p.destination)
    obtain ⟨c2, hc2, hd2⟩ :=
      ih { st with fs := ensure_directory st.fs (path_parent p.destination) }
    refine ⟨c1 ++ c2, ?_, ?_⟩
    · rw [hc2]
      simp only [hc1, List.append_assoc]
    · intro e he
      rcases List.mem_append.mp he with hmem | hmem
      · exact hd1 e hmem
      · exact hd2 e hmem

theorem path_exists_mono (l created : List Entry) (p : FsPath)
    (h : path_exists ⟨l⟩ p = true) : path_exists ⟨l ++ created⟩ p = true := by
  simp only [path_exists, List.any_append, Bool.or_eq_true]
  exact Or.inl h

theorem is_directory_mono (l created : List Entry) (p : FsPath)
    (h : is_directory ⟨l⟩ p = true) : is_directory ⟨l ++ created⟩ p = true := by
  simp only [is_directory, List.any_append, Bool.or_eq_true]
  exact Or.inl h

theorem iterdir_append (l created : List Entry) (d : FsPath) :
    iterdir ⟨l ++ created⟩ d = iterdir ⟨l⟩ d ++ iterdir ⟨created⟩ d :=
  List.filter_append _ _

theorem build_append_dirs (fs : FileSystem) (created : List Entry)
    (directory : FsPath) (include_hidden : Bool) (plans : List MovePlan)
    (hdirs : ∀ e ∈ created, e.is_dir = true)
    (hb : build_move_plan_for_directory fs directory include_hidden = .ok plans) :
    build_move_plan_for_directory ⟨fs.entries ++ created⟩ directory include_hidden =
      .ok plans := by
  unfold build_move_plan_for_directory at hb ⊢
  by_cases hg : path_exists fs directory = false ∨ is_directory fs directory = false
  · rw [if_pos hg] at hb
    cases hb
  · have hex : path_exists fs directory = true := by
      cases hb2 : path_exists fs directory with
      | false => exact absurd (Or.inl hb2) hg
      | true => rfl
    have hdir : is_directory fs directory = true := by
      cases hb2 : is_directory fs directory with
      | false => exact absurd (Or.inr hb2) hg
      | true => rfl
    have hex' := path_exists_mono fs.entries created directory hex
    have hdir' := is_directory_mono fs.entries created directory hdir
    rw [if_neg hg] at hb
    rw [if_neg (by simp [hex', hdir'])]
    rw [iterdir_append, List.filterMap_append]
    have hnil : (iterdir ⟨created⟩ directory).filterMap
        (plan_for_entry directory include_hidden) = [] := by
      rw [List.filterMap_eq_nil_iff]
      intro e he
      have hedir : e.is_dir = true := hdirs e (List.mem_of_mem_filter he)
      simp [plan_for_entry, hedir]
    rw [hnil, List.append_nil]
    exact hb

theorem categories_lower_fixed :
    ∀ p ∈ CATEGORIES, ∀ s ∈ p.2, py_lower s = s := by
  decide

theorem resolve_loop_all_true (parent : FsPath) (stem suffix : String) :
    ∀ (fuel counter : Nat),
      resolve_loop (fun _ => true) parent stem suffix counter fuel = none := by
  intro fuel
  induction fuel with
  | zero => intro c; rfl
  | succ f ih => intro c; simpa [resolve_loop] using ih (c + 1)

theorem dict_get_incr_sum :
    ∀ (d : List (String × Nat)) (k : String),
      sum_counts (dict_set d k (dict_get d k 0 + 1)) = sum_counts d + 1 := by
  intro d
  induction d with
  | nil => intro k; simp [dict_set, dict_get, sum_counts, List.find?]
  | cons kv rest ih =>
    intro k
    by_cases h : kv.1 = k
    · simp [dict_set, dict_get, sum_counts, List.find?, h]
      omega
    · have hget : dict_get (kv :: rest) k 0 = dict_get rest k 0 := by
        simp [dict_get, List.find?, h]
      have hset : dict_set (kv :: rest) k (dict_get rest k 0 + 1) =
          kv :: dict_set rest k (dict_get rest k 0 + 1) := by
        simp [dict_set, h]
      rw [hget, hset]
      have hrec := ih k
      simp only [sum_counts, List.map_cons, List.sum_cons] at *
      omega

theorem apply_loop_live_spec :
    ∀ (plans : List MovePlan) (st st' : ApplyState),
      apply_loop false st plans = .ok st' →
      st'.moved_count = st.moved_count + plans.length ∧
      sum_counts st'.per_category = sum_counts st.per_category + plans.length := by
  intro plans
  induction plans with
  | nil =>
    intro st st' h
    injection h with h
    subst h
    simp
  | cons p rest ih =>
    intro st st' h
    simp only [apply_loop, Bool.false_eq_true, if_false] at h
    cases hm : shutil_move (ensure_directory st.fs (path_parent p.destination))
        p.source
        (generate_unique_destination_path
          (ensure_directory st.fs (path_parent p.destination)) p.destination) with
    | error e => rw [hm] at h; cases h
    | ok fs2 =>
      rw [hm] at h
      obtain ⟨h1, h2⟩ := ih _ st' h
      have h1' : st'.moved_count = st.moved_count + 1 + rest.length := h1
      have h2' : sum_counts st'.per_category =
          sum_counts (dict_set st.per_category p.category
            (dict_get st.per_category p.category 0 + 1)) + rest.length := h2
      rw [dict_get_incr_sum] at h2'
      constructor
      · simp only [List.length_cons]
        omega
      · simp only [List.length_cons]
        omega

example : nat_repr 0 = "0" := by decide
example : nat_repr 137 = "137" := by decide
example : py_suffix "archive.tar.gz" = ".gz" := by decide
example : py_stem "report.pdf" = "report" := by decide
example : py_suffix ".bashrc" = "" := by decide
example : py_lower ".JPG" = ".jpg" := by decide

/-- C6: for every extension whose lower-cased form is listed in some
category's extension set (hence for every case variant of a listed
extension), `infer_category_from_extension` returns that category, and
classification agrees with classification of the lower-cased input
(`classify(e) = classify(lowercase(e))` holds for all inputs since the
lookup lower-cases first and lower-casing is idempotent). -/
theorem infer_category_case_insensitive :
    (∀ extension : String,
      infer_category_from_extension extension =
        infer_category_from_extension (py_lower extension))
    ∧ ∀ (category : String) (extensions : List String) (extension : String),
        (category, extensions) ∈ CATEGORIES →
        py_lower extension ∈ extensions →
        infer_category_from_extension extension = category := by
  constructor
  · intro extension
    unfold infer_category_from_extension
    rw [py_lower_idem]
  · intro category extensions extension hmem hlow
    exact infer_aux_mem CATEGORIES category extensions (py_lower extension)
      categories_pairwise hmem hlow

/-- Witness for C6 at the spec's own example: `.JPG` classifies as the
image category, and agrees with the classification of `.jpg`. -/
theorem infer_category_case_insensitive_witness :
    infer_category_from_extension ".JPG" = "Imagenes" ∧
    infer_category_from_extension ".JPG" = infer_category_from_extension ".jpg" := by
  constructor
  · exact infer_category_case_insensitive.2 "Imagenes"
      [".png", ".jpg", ".jpeg", ".gif", ".bmp", ".tiff", ".webp", ".svg",
       ".heic", ".avif"] ".JPG" (by decide) (by decide)
  · have h := infer_category_case_insensitive.1 ".JPG"
    have hl : py_lower ".JPG" = ".jpg" := by decide
    rw [hl] at h
    exact h

/-- C7: an extension whose lower-cased form occurs in no category's
extension list (the empty extension included) classifies as the fixed
fallback category `DEFAULT_OTHER_CATEGORY` (`"Otros"`). -/
theorem infer_category_fallback (extension : String)
    (h : ∀ p ∈ CATEGORIES, py_lower extension ∉ p.2) :
    infer_category_from_extension extension = DEFAULT_OTHER_CATEGORY :=
  infer_aux_fallback CATEGORIES (py_lower extension) h

/-- Witness for C7: an unknown extension and the empty extension both
fall back to `"Otros"`. -/
theorem infer_category_fallback_witness :
    infer_category_from_extension ".xyz" = DEFAULT_OTHER_CATEGORY ∧
    infer_category_from_extension "" = DEFAULT_OTHER_CATEGORY :=
  ⟨infer_category_fallback ".xyz" (by decide),
   infer_category_fallback "" (by decide)⟩

/-- C4: when the target path does not exist or is not a directory,
`build_move_plan_for_directory` fails with the invalid-target error
before producing any plan item; the builder performs no filesystem
mutation at all (its type reads the snapshot and returns only the plan). -/
theorem build_invalid_target (fs : FileSystem) (directory : FsPath)
    (include_hidden : Bool)
    (h : path_exists fs directory = false ∨ is_directory fs directory = false) :
    build_move_plan_for_directory fs directory include_hidden =
      .error (.invalidTargetDirectory directory) := by
  unfold build_move_plan_for_directory
  rw [if_pos h]

/-- Witness for C4: a non-existent target and a file (non-directory)
target both fail with the invalid-target error. -/
theorem build_invalid_target_witness :
    build_move_plan_for_directory fsReport ["x"] false =
      .error (.invalidTargetDirectory ["x"]) ∧
    build_move_plan_for_directory fsReport ["d", "report.pdf"] false =
      .error (.invalidTargetDirectory ["d", "report.pdf"]) :=
  ⟨build_invalid_target fsReport ["x"] false (by decide),
   build_invalid_target fsReport ["d", "report.pdf"] false (by decide)⟩

/-- C2 counterexample: the plan builder's extension token for
`archive.tar.gz` is `child.suffix.lower()`, which is `".gz"` — not the
full trailing token `".tar.gz"` the claim asserts. -/
theorem tarGz_suffix_counterexample :
    file_extension_of "archive.tar.gz" = ".gz" ∧ (".gz" : String) ≠ ".tar.gz" :=
  ⟨by decide, by decide⟩

/-- C2 (amended): the builder classifies `archive.tar.gz` by its final
suffix `".gz"` only; since `".gz"` itself is listed under Comprimidos,
the planned move is still `Comprimidos/archive.tar.gz`. -/
theorem tarGz_plan_comprimidos :
    build_move_plan_for_directory fsTarGz ["d"] false =
      .ok [{ source := ["d", "archive.tar.gz"]
             destination := ["d", "Comprimidos", "archive.tar.gz"]
             category := "Comprimidos" }] :=
  rfl

/-- C5 counterexample: against a filesystem that pathologically reports
every path as existing, the resolver's loop is still running after one
million iterations — it neither returns a result nor fails defensively
(the loop body has no error outcome at all), contradicting the claimed
defensive `MoveFailed` after a very large bounded number of attempts. -/
theorem resolve_loop_pathological_counterexample :
    resolve_loop (fun _ => true) ["d"] "report" ".pdf" 1 1000000 = none :=
  resolve_loop_all_true ["d"] "report" ".pdf" 1000000 1

/-- C5 (amended): the resolver has no defensive bound: if every candidate
is reported as existing, the loop runs forever — for every fuel budget it
has neither produced a path nor any failure; it terminates only because
some candidate is free (which on a finite filesystem always happens). -/
theorem resolve_loop_no_defensive_bound (parent : FsPath) (stem suffix : String)
    (counter fuel : Nat) :
    resolve_loop (fun _ => true) parent stem suffix counter fuel = none :=
  resolve_loop_all_true parent stem suffix fuel counter

/-- C3: the destination resolver returns the proposed path unchanged when
nothing exists there; otherwise it returns `stem (m).ext` for the least
counter `m ≥ 1` whose candidate does not exist (every smaller counter's
candidate exists); in all cases the returned path names no existing
entry, so nothing can be overwritten. -/
theorem generate_unique_destination_path_spec (fs : FileSystem)
    (destination : FsPath) :
    (path_exists fs destination = false →
      generate_unique_destination_path fs destination = destination)
    ∧ (path_exists fs destination = true →
      ∃ m, 1 ≤ m ∧
        generate_unique_destination_path fs destination =
          collision_candidate destination m ∧
        path_exists fs (collision_candidate destination m) = false ∧
        ∀ j, 1 ≤ j → j < m →
          path_exists fs (collision_candidate destination j) = true)
    ∧ path_exists fs (generate_unique_destination_path fs destination) = false := by
  have h1 : path_exists fs destination = false →
      generate_unique_destination_path fs destination = destination := by
    intro hex
    simp [generate_unique_destination_path, hex]
  have h2 : path_exists fs destination = true →
      ∃ m, 1 ≤ m ∧
        generate_unique_destination_path fs destination =
          collision_candidate destination m ∧
        path_exists fs (collision_candidate destination m) = false ∧
        ∀ j, 1 ≤ j → j < m →
          path_exists fs (collision_candidate destination j) = true := by
    intro hex
    obtain ⟨c, hc1, hc2, hc3⟩ := exists_free_candidate fs (path_parent destination)
      (py_stem (path_name destination)) (py_suffix (path_name destination))
    obtain ⟨m, hm1, hm2, hm3, hm4⟩ := resolve_loop_finds (path_exists fs)
      (path_parent destination) (py_stem (path_name destination))
      (py_suffix (path_name destination)) (fs.entries.length + 1) 1
      ⟨c, hc1, by omega, hc3⟩
    refine ⟨m, hm1, ?_, hm3, fun j hj1 hj2 => hm4 j hj1 hj2⟩
    simp only [generate_unique_destination_path, hex, if_true, hm2,
      Option.getD_some]
    rfl
  refine ⟨h1, h2, ?_⟩
  cases hb : path_exists fs destination with
  | false => rw [h1 hb]; exact hb
  | true =>
    obtain ⟨m, _, hm2, hm3, _⟩ := h2 hb
    rw [hm2]
    exact hm3

/-- Witness for C3: with `report.pdf` present the resolver yields
`report (1).pdf`; with `report (1).pdf` also present it yields
`report (2).pdf`; a collision-free proposal comes back unchanged, and the
resolved path never names an existing entry. -/
theorem generate_unique_destination_path_spec_witness :
    generate_unique_destination_path fsReport ["d", "report.pdf"] =
      ["d", "report (1).pdf"] ∧
    generate_unique_destination_path fsReport2 ["d", "report.pdf"] =
      ["d", "report (2).pdf"] ∧
    generate_unique_destination_path fsReport ["d", "notes.txt"] =
      ["d", "notes.txt"] ∧
    path_exists fsReport
      (generate_unique_destination_path fsReport ["d", "report.pdf"]) = false := by
  refine ⟨by decide, by decide, ?_, ?_⟩
  · exact (generate_unique_destination_path_spec fsReport ["d", "notes.txt"]).1
      (by decide)
  · exact (generate_unique_destination_path_spec fsReport ["d", "report.pdf"]).2.2

/-- C9: applying any plan with `dry_run` returns `moved_count = 0` and an
empty per-category mapping (the counters are only touched in the non-dry
branch), and it cannot fail. -/
theorem apply_dry_run_zero_counts (fs : FileSystem) (plans : List MovePlan) :
    ∃ st, apply_move_plan fs plans true = .ok st ∧
      st.moved_count = 0 ∧ st.per_category = [] := by
  obtain ⟨created, h1, _⟩ := apply_loop_dry_spec plans ⟨fs, 0, []⟩
  exact ⟨_, h1, rfl, rfl⟩

/-- C1 counterexample: a dry run does NOT leave the filesystem unchanged:
`ensure_directory` runs before the `dry_run` branch, so the missing
category directory `d/Documentos` is created by the dry run. -/
theorem dry_run_creates_directory_counterexample :
    apply_move_plan fsReport [planDocumentos] true = .ok ⟨fsAfterDry, 0, []⟩ ∧
    fsAfterDry ≠ fsReport ∧
    path_exists fsReport ["d", "Documentos"] = false ∧
    path_exists fsAfterDry ["d", "Documentos"] = true ∧
    is_directory fsAfterDry ["d", "Documentos"] = true :=
  ⟨by decide, by decide, by decide, by decide, by decide⟩

/-- C1 (amended): a dry run moves no file and increments no counter
(`moved_count = 0`, empty per-category tally, every original entry kept
in place), and it cannot produce `MoveFailed`; but it is not
mutation-free: it appends the plan items' missing destination parent
directories (directory entries only) to the filesystem, because
`ensure_directory` runs before the `dry_run` test.  Destination
resolution still runs for the report. -/
theorem apply_dry_run_effects (fs : FileSystem) (plans : List MovePlan) :
    ∃ st created, apply_move_plan fs plans true = .ok st ∧
      st.moved_count = 0 ∧ st.per_category = [] ∧
      st.fs.entries = fs.entries ++ created ∧
      ∀ e ∈ created, e.is_dir = true := by
  obtain ⟨created, h1, h2⟩ := apply_loop_dry_spec plans ⟨fs, 0, []⟩
  exact ⟨_, created, h1, rfl, rfl, rfl, h2⟩

/-- C8: a dry run only appends directory entries, and the plan builder
skips directory entries, so rebuilding after a dry run yields the
identical plan: same items, same order. -/
theorem dry_run_idempotent (fs : FileSystem) (directory : FsPath)
    (include_hidden : Bool) (plans : List MovePlan) (st : ApplyState)
    (hb : build_move_plan_for_directory fs directory include_hidden = .ok plans)
    (ha : apply_move_plan fs plans true = .ok st) :
    build_move_plan_for_directory st.fs directory include_hidden = .ok plans := by
  obtain ⟨created, h1, h2⟩ := apply_loop_dry_spec plans ⟨fs, 0, []⟩
  rw [apply_move_plan, h1] at ha
  have hst : st = ⟨⟨fs.entries ++ created⟩, 0, []⟩ := by
    injection ha with h
    exact h.symm
  rw [hst]
  exact build_append_dirs fs created directory include_hidden plans h2 hb

/-- Witness for C8: after the dry run on `fsReport` (which created
`d/Documentos`), rebuilding produces the same single-item plan. -/
theorem dry_run_idempotent_witness :
    build_move_plan_for_directory fsAfterDry ["d"] false = .ok [planDocumentos] :=
  dry_run_idempotent fsReport ["d"] false [planDocumentos] ⟨fsAfterDry, 0, []⟩
    (by rfl) (by rfl)

/-- C10: when a live (non-dry) apply completes without a move failure,
`moved_count` equals the number of plan items processed and equals the
sum of the per-category counts.  The theorem holds for every plan list,
hence for every prefix of a run, which is exactly preservation of the
equality after each item (each iteration adds one to `moved_count` and
one to a single category's tally). -/
theorem apply_live_counts (fs : FileSystem) (plans : List MovePlan)
    (st : ApplyState) (h : apply_move_plan fs plans false = .ok st) :
    st.moved_count = plans.length ∧
    sum_counts st.per_category = st.moved_count := by
  obtain ⟨h1, h2⟩ := apply_loop_live_spec plans ⟨fs, 0, []⟩ st h
  have h1' : st.moved_count = 0 + plans.length := h1
  have h2' : sum_counts st.per_category = sum_counts [] + plans.length := h2
  have h0 : sum_counts ([] : List (String × Nat)) = 0 := rfl
  constructor
  · omega
  · omega

/-- Witness for C10: the live run of `planDocumentos` on `fsReport` moves
one file, with `moved_count = 1` equal to the per-category total. -/
theorem apply_live_counts_witness :
    (⟨fsAfterLive, 1, [("Documentos", 1)]⟩ : ApplyState).moved_count = 1 ∧
    sum_counts (⟨fsAfterLive, 1, [("Documentos", 1)]⟩ : ApplyState).per_category = 1 := by
  have h := apply_live_counts fsReport [planDocumentos]
    ⟨fsAfterLive, 1, [("Documentos", 1)]⟩ (by decide)
  exact ⟨h.1, h.2.trans h.1⟩
